import Mathlib

/-!
# pterm `color.go`: colour codes, styles and the delegating print methods

A shallow embedding of `src/color.go`.

* `Color` is Go's `type Color uint8`; `Style` is `type Style []Color`.
* The constants are written with their `iota` arithmetic.
* `Color.String` is `fmt.Sprintf("%d", c)`: the digit loop of Go's integer
  formatter, run on the numeric code.
* `colors2code` is the source's guard, its `append` loop and `strings.Join`.
* Everything the file takes from `github.com/gookit/color` and from `fmt`
  (`RenderCode`, `RenderString`, the library's own `Color.String`, `Sprintf`,
  `Print`, `Println`) is a field of `Lib`, so the methods are stated for every
  implementation of the library; `ansiLib` is one concrete implementation, used
  to evaluate the methods on concrete operands. Its `Print` and `Println`
  replace the library's colour tags (`<green>text</>`) before they write.
* Standard output is the text written so far (`Stdout`).
-/

namespace Pterm

/-- Go's `string`, as the text it holds. -/
abbrev GoString := String

/-- The source's `type Color uint8`: a numeric code in `0 .. 255`. -/
abbrev Color := Fin 256

/-- The source's `type Style []Color`: a sequence of colours, in order. -/
abbrev Style := List Color

/-! ## Constants (`const` blocks, with `iota`) -/

/-- The constant `FgBlack Color = iota + 30`, first of its block (`iota = 0`). -/
def FgBlack : Color := ⟨0 + 30, by decide⟩
/-- Second of the block (`iota = 1`). -/
def FgRed : Color := ⟨1 + 30, by decide⟩
/-- Third of the block (`iota = 2`). -/
def FgGreen : Color := ⟨2 + 30, by decide⟩
/-- Fourth of the block (`iota = 3`). -/
def FgYellow : Color := ⟨3 + 30, by decide⟩
/-- Fifth of the block (`iota = 4`). -/
def FgBlue : Color := ⟨4 + 30, by decide⟩
/-- Sixth of the block (`iota = 5`). -/
def FgMagenta : Color := ⟨5 + 30, by decide⟩
/-- Seventh of the block (`iota = 6`). -/
def FgCyan : Color := ⟨6 + 30, by decide⟩
/-- Eighth of the block (`iota = 7`). -/
def FgWhite : Color := ⟨7 + 30, by decide⟩
/-- The constant `FgDefault Color = 39`. -/
def FgDefault : Color := ⟨39, by decide⟩

/-- The constant `FgDarkGray Color = iota + 90`, first of its block. -/
def FgDarkGray : Color := ⟨0 + 90, by decide⟩
/-- Second of the block. -/
def FgLightRed : Color := ⟨1 + 90, by decide⟩
/-- Third of the block. -/
def FgLightGreen : Color := ⟨2 + 90, by decide⟩
/-- Fourth of the block. -/
def FgLightYellow : Color := ⟨3 + 90, by decide⟩
/-- Fifth of the block. -/
def FgLightBlue : Color := ⟨4 + 90, by decide⟩
/-- Sixth of the block. -/
def FgLightMagenta : Color := ⟨5 + 90, by decide⟩
/-- Seventh of the block. -/
def FgLightCyan : Color := ⟨6 + 90, by decide⟩
/-- Eighth of the block. -/
def FgLightWhite : Color := ⟨7 + 90, by decide⟩
/-- The constant `FgGray Color = 90`. -/
def FgGray : Color := ⟨90, by decide⟩

/-- The constant `BgBlack Color = iota + 40`, first of its block. -/
def BgBlack : Color := ⟨0 + 40, by decide⟩
/-- Second of the block. -/
def BgRed : Color := ⟨1 + 40, by decide⟩
/-- Third of the block. -/
def BgGreen : Color := ⟨2 + 40, by decide⟩
/-- Fourth of the block. -/
def BgYellow : Color := ⟨3 + 40, by decide⟩
/-- Fifth of the block. -/
def BgBlue : Color := ⟨4 + 40, by decide⟩
/-- Sixth of the block. -/
def BgMagenta : Color := ⟨5 + 40, by decide⟩
/-- Seventh of the block. -/
def BgCyan : Color := ⟨6 + 40, by decide⟩
/-- Eighth of the block. -/
def BgWhite : Color := ⟨7 + 40, by decide⟩
/-- The constant `BgDefault Color = 49`. -/
def BgDefault : Color := ⟨49, by decide⟩

/-- The constant `BgDarkGray Color = iota + 100`, first of its block. -/
def BgDarkGray : Color := ⟨0 + 100, by decide⟩
/-- Second of the block. -/
def BgLightRed : Color := ⟨1 + 100, by decide⟩
/-- Third of the block. -/
def BgLightGreen : Color := ⟨2 + 100, by decide⟩
/-- Fourth of the block. -/
def BgLightYellow : Color := ⟨3 + 100, by decide⟩
/-- Fifth of the block. -/
def BgLightBlue : Color := ⟨4 + 100, by decide⟩
/-- Sixth of the block. -/
def BgLightMagenta : Color := ⟨5 + 100, by decide⟩
/-- Seventh of the block. -/
def BgLightCyan : Color := ⟨6 + 100, by decide⟩
/-- Eighth of the block. -/
def BgLightWhite : Color := ⟨7 + 100, by decide⟩
/-- The constant `BgGray Color = 100`. -/
def BgGray : Color := ⟨100, by decide⟩

/-- The constant `Reset Color = iota`, first of the option block. -/
def Reset : Color := ⟨0, by decide⟩
/-- Second option (`iota = 1`). -/
def Bold : Color := ⟨1, by decide⟩
/-- Third option. -/
def Fuzzy : Color := ⟨2, by decide⟩
/-- Fourth option. -/
def Italic : Color := ⟨3, by decide⟩
/-- Fifth option. -/
def Underscore : Color := ⟨4, by decide⟩
/-- Sixth option. -/
def Blink : Color := ⟨5, by decide⟩
/-- Seventh option. -/
def FastBlink : Color := ⟨6, by decide⟩
/-- Eighth option. -/
def Reverse : Color := ⟨7, by decide⟩
/-- Ninth option. -/
def Concealed : Color := ⟨8, by decide⟩
/-- Tenth option. -/
def Strikethrough : Color := ⟨9, by decide⟩

/-! ## `fmt.Sprintf("%d", c)` and `strings.Join` -/

/-- The byte `'0' + d` of a decimal digit. -/
def digitByte (d : Nat) : Char := Char.ofNat (48 + d)

/-- The digit loop of Go's integer formatter at base 10:
`for u >= 10 { next := u / 10; buf[i] = '0' + u - next*10; u = next }`
and then the leading digit. The digits are written in front of `buf`.
The first argument bounds the number of turns; `u` turns are always enough. -/
def fmtIntegerLoop : Nat → Nat → List Char → List Char
  | 0, u, buf => digitByte u :: buf
  | fuel + 1, u, buf =>
    if u ≥ 10 then
      fmtIntegerLoop fuel (u / 10) (digitByte (u - (u / 10) * 10) :: buf)
    else
      digitByte u :: buf

/-- The verb `%d` on an unsigned integer: its decimal digits. -/
def fmtD (u : Nat) : GoString := String.mk (fmtIntegerLoop u u [])

/-- The method `func (c Color) String() string`: `fmt.Sprintf("%d", c)`. -/
def Color.String (c : Color) : GoString := fmtD c.val

/-- Go's `strings.Join`: nothing for no element, the element itself for one,
and otherwise the first element followed by `sep` and the next element, for
each further element. -/
def stringsJoin (elems : List GoString) (sep : GoString) : GoString :=
  match elems with
  | [] => ""
  | [e] => e
  | e :: rest => rest.foldl (fun b s => b ++ sep ++ s) e

/-- The function `colors2code`: the empty text for no colour; otherwise every
colour's `String()` is appended to `codes`, in order, and they are joined
with `";"`. -/
def colors2code (colors : List Color) : GoString :=
  if colors.length = 0 then ""
  else
    let codes := colors.foldl (fun (codes : List GoString) c => codes ++ [c.String]) []
    stringsJoin codes ";"

/-- The constructor `NewStyle(colors ...Color) Style`: the arguments themselves. -/
def NewStyle (colors : List Color) : Style := colors

/-- The method `func (s Style) String() string`. -/
def Style.String (s : Style) : GoString := colors2code s

/-- The method `func (s Style) Code() string`. -/
def Style.Code (s : Style) : GoString := s.String

/-! ## Operands and Go's default formats -/

/-- An operand of a variadic `a ...interface{}`: a string or an integer. -/
inductive Value where
  | str (s : GoString)
  | int (n : Int)
deriving DecidableEq

/-- Whether the operand's kind is `reflect.String`. -/
def Value.isString : Value → Bool
  | .str _ => true
  | .int _ => false

/-- An operand under the verb `%v`: a string as it stands, an integer in
decimal with a minus sign when negative. -/
def fmtV : Value → GoString
  | .str s => s
  | .int n => if n < 0 then "-" ++ fmtD n.natAbs else fmtD n.natAbs

/-- Go's `fmt.Sprint`: the operands under `%v`, in order, with a space between
two operands when neither is a string. The state is the buffer, whether the
previous operand was a string, and the operand's index. -/
def fmtSprint (a : List Value) : GoString :=
  (a.foldl (fun (st : GoString × Bool × Nat) arg =>
      let isString := arg.isString
      let buf := if st.2.2 > 0 && !isString && !st.2.1 then st.1 ++ " " else st.1
      (buf ++ fmtV arg, isString, st.2.2 + 1)) ("", false, 0)).1

/-- Go's `fmt.Sprintln`: the operands under `%v`, in order, with a space
between any two of them, and a newline at the end. -/
def fmtSprintln (a : List Value) : GoString :=
  (a.foldl (fun (st : GoString × Nat) arg =>
      let buf := if st.2 > 0 then st.1 ++ " " else st.1
      (buf ++ fmtV arg, st.2 + 1)) ("", 0)).1 ++ "\n"

/-- The name of an operand's type, as `reflect.TypeOf(arg).String()` gives it. -/
def Value.typeName : Value → GoString
  | .str _ => "string"
  | .int _ => "int"

/-- One operand under one verb of the fragment (`v`, `d`, `s`): the operand's
text when the verb fits its type, and Go's bad-verb text
`%!verb(type=value)` when it does not. -/
def printArg (arg : Value) (verb : Char) : GoString :=
  match arg, verb with
  | .str s, 'd' => "%!d(string=" ++ s ++ ")"
  | .int n, 's' => "%!s(int=" ++ fmtV (.int n) ++ ")"
  | arg, _ => fmtV arg

/-- The operands left over when the format is used up, as `fmt.Sprintf` lists
them after `%!(EXTRA `: `type=value`, separated by a comma and a blank. -/
def extraOperands : List Value → GoString
  | [] => ""
  | [arg] => arg.typeName ++ "=" ++ fmtV arg
  | arg :: rest => arg.typeName ++ "=" ++ fmtV arg ++ ", " ++ extraOperands rest

/-- The fragment of `fmt.Sprintf` whose formats hold no verb but `%v`, `%d`,
`%s` and `%%`, without flags, width or precision. `%%` is a percent sign; a
verb takes the next operand (`printArg`), and `%!verb(MISSING)` is written
when none is left; a `%` that ends the format gives `%!(NOVERB)`; operands
left over at the end are listed in `%!(EXTRA ...)`; any other byte is copied.
A `%` followed by another byte is outside the fragment (the two bytes are
copied). -/
def sprintfV : List Char → List Value → GoString → GoString
  | [], [], buf => buf
  | [], arg :: args, buf => buf ++ "%!(EXTRA " ++ extraOperands (arg :: args) ++ ")"
  | ['%'], args, buf => sprintfV [] args (buf ++ "%!(NOVERB)")
  | '%' :: '%' :: rest, args, buf => sprintfV rest args (buf ++ "%")
  | '%' :: 'v' :: rest, [], buf => sprintfV rest [] (buf ++ "%!v(MISSING)")
  | '%' :: 'd' :: rest, [], buf => sprintfV rest [] (buf ++ "%!d(MISSING)")
  | '%' :: 's' :: rest, [], buf => sprintfV rest [] (buf ++ "%!s(MISSING)")
  | '%' :: 'v' :: rest, arg :: args, buf => sprintfV rest args (buf ++ printArg arg 'v')
  | '%' :: 'd' :: rest, arg :: args, buf => sprintfV rest args (buf ++ printArg arg 'd')
  | '%' :: 's' :: rest, arg :: args, buf => sprintfV rest args (buf ++ printArg arg 's')
  | ch :: rest, args, buf => sprintfV rest args (buf.push ch)

/-! ## The library `github.com/gookit/color`, `fmt.Sprintf`, standard output -/

/-- Standard output: the text written to it so far. -/
abbrev Stdout := GoString

/-- What `color.go` takes from outside the repository. -/
structure Lib where
  /-- The library's `color.RenderCode(code, args...)`. -/
  RenderCode : GoString → List Value → GoString
  /-- The library's `color.RenderString(code, str)`. -/
  RenderString : GoString → GoString → GoString
  /-- The library's own `String()` on `color.Color(c)`. -/
  ColorString : Color → GoString
  /-- Go's `fmt.Sprintf(format, a...)`. -/
  fmtSprintf : GoString → List Value → GoString
  /-- The library's `color.Print(a...)`, as its effect on standard output. -/
  colorPrint : List Value → Stdout → Stdout
  /-- The library's `color.Println(a...)`, as its effect on standard output. -/
  colorPrintln : List Value → Stdout → Stdout

/-- The library's `RenderCode` with colour enabled: nothing without operands;
otherwise the `fmt.Sprint` of the operands, as it stands for an empty code and
between `ESC[<code>m` and `ESC[0m` for any other. -/
def ansiRenderCode (code : GoString) (args : List Value) : GoString :=
  if args.length = 0 then ""
  else
    let message := fmtSprint args
    if code.length = 0 then message
    else "\x1b[" ++ code ++ "m" ++ message ++ "\x1b[0m"

/-- The library's `RenderString` with colour enabled: the text as it stands
for an empty code or an empty text, and between `ESC[<code>m` and `ESC[0m`
otherwise. -/
def ansiRenderString (code : GoString) (str : GoString) : GoString :=
  if code.length = 0 || str = "" then str
  else "\x1b[" ++ code ++ "m" ++ str ++ "\x1b[0m"

/-! ### The library's colour tags (`<name>text</>`) -/

/-- Whether `needle` occurs in a byte sequence. -/
def containsBytes (needle : List Char) : List Char → Bool
  | [] => needle.isPrefixOf []
  | ch :: rest => needle.isPrefixOf (ch :: rest) || containsBytes needle rest

/-- Go's `strings.Contains`. -/
def stringsContains (s substr : GoString) : Bool := containsBytes substr.data s.data

/-- Whether a text holds the closing tag `</>`: the test by which the library
decides whether a text has colour tags at all. -/
def hasCloseTag (t : GoString) : Bool := stringsContains t "</>"

/-- The first occurrence of `old` in a byte sequence replaced by `new`. -/
def replaceFirstBytes (old new : List Char) : List Char → List Char
  | [] => if old.isEmpty then new else []
  | ch :: rest =>
    if old.isPrefixOf (ch :: rest) then new ++ (ch :: rest).drop old.length
    else ch :: replaceFirstBytes old new rest

/-- Go's `strings.Replace(s, old, new, 1)`. -/
def stringsReplaceFirst (s old new : GoString) : GoString :=
  String.mk (replaceFirstBytes old.data new.data s.data)

/-- The bytes of a tag name, the class `[a-zA-Z_=,;]` of the library's
expression for tags. -/
def isTagByte (ch : Char) : Bool :=
  (decide ('a' ≤ ch) && decide (ch ≤ 'z')) || (decide ('A' ≤ ch) && decide (ch ≤ 'Z'))
    || ch == '_' || ch == '=' || ch == ',' || ch == ';'

/-- The content of a tag: the bytes up to the first `</>`, and what follows
that `</>`; nothing when there is no `</>`. -/
def tagContent : List Char → Option (List Char × List Char)
  | [] => none
  | ch :: rest =>
    if "</>".data.isPrefixOf (ch :: rest) then some ([], (ch :: rest).drop 3)
    else
      match tagContent rest with
      | none => none
      | some (content, after) => some (ch :: content, after)

/-- A match of the library's expression `<([a-zA-Z_=,;]+)>(.*?)</>` at the
head of a byte sequence: the tag name, the content, and what follows. -/
def matchTagAt : List Char → Option (List Char × List Char × List Char)
  | '<' :: s1 =>
    let tag := s1.takeWhile isTagByte
    if tag.isEmpty then none
    else
      match s1.dropWhile isTagByte with
      | '>' :: s2 =>
        match tagContent s2 with
        | none => none
        | some (content, after) => some (tag, content, after)
      | _ => none
  | _ => none

/-- All matches of the expression, from left to right, none overlapping
another: the tag name and the content of each. The first argument bounds the
number of turns; a turn uses up at least one byte, so as many turns as bytes
are enough. -/
def findTags : Nat → List Char → List (List Char × List Char)
  | 0, _ => []
  | _, [] => []
  | fuel + 1, ch :: rest =>
    match matchTagAt (ch :: rest) with
    | some (tag, content, after) => (tag, content) :: findTags fuel after
    | none => findTags fuel rest

/-- The library's `ReplaceTag` with colour enabled, over the code that the
library gives a tag (`tagCode`, empty for a tag it does not know): a text
without `</>` is returned as it stands; otherwise, for every match whose tag
has a code, the first occurrence of the whole match in the text is replaced
by the content rendered with that code. -/
def replaceTag (tagCode : GoString → GoString) (str : GoString) : GoString :=
  if !hasCloseTag str then str
  else
    (findTags str.length str.data).foldl (fun (str : GoString) item =>
      let code := tagCode (String.mk item.1)
      if code.length > 0 then
        stringsReplaceFirst str (String.mk ('<' :: item.1 ++ '>' :: item.2 ++ "</>".data))
          (ansiRenderString code (String.mk item.2))
      else str) str

/-- The entries of the library's table of tags for five basic colour names.
The table's other names, and the tags that spell out attributes
(`fg=...;bg=...`), are not listed here and get no code. -/
def basicTagCode (tag : GoString) : GoString :=
  if tag = "red" then "0;31"
  else if tag = "blue" then "0;34"
  else if tag = "cyan" then "0;36"
  else if tag = "black" then "0;30"
  else if tag = "green" then "0;32"
  else ""

/-- The library's `formatArgsForPrintln`: nothing for no operand, the
`fmt.Sprint` of a single operand, and otherwise `fmt.Sprintln` of the operands
without its last byte. -/
def formatArgsForPrintln (args : List Value) : GoString :=
  match args with
  | [] => ""
  | [arg] => fmtSprint [arg]
  | _ => String.mk (fmtSprintln args).data.dropLast

/-- The library's `Render`: nothing for no operand, and otherwise the
`fmt.Sprint` of the operands with its colour tags replaced. -/
def ansiRender (a : List Value) : GoString :=
  if a.length = 0 then "" else replaceTag basicTagCode (fmtSprint a)

/-- One implementation of the library, with colour enabled: the two renderers
above, the decimal `String()` of the library's colour type, the fragment
`sprintfV` of `fmt.Sprintf`, and the library's `Print` and `Println`, which
replace the colour tags of their text before they write it (`Println` then
adds a newline). -/
def ansiLib : Lib where
  RenderCode := ansiRenderCode
  RenderString := ansiRenderString
  ColorString := fun c => fmtD c.val
  fmtSprintf := fun format a => sprintfV format.data a ""
  colorPrint := fun a out => out ++ ansiRender a
  colorPrintln := fun a out => out ++ (replaceTag basicTagCode (formatArgsForPrintln a) ++ "\n")

/-- The package variable `Print = color.Print`. -/
def Print (L : Lib) : List Value → Stdout → Stdout := L.colorPrint

/-- The package variable `Println = color.Println`. -/
def Println (L : Lib) : List Value → Stdout → Stdout := L.colorPrintln

/-! ## Methods of `Color` -/

/-- The method `func (c Color) Sprintln(a ...interface{}) string`. -/
def Color.Sprintln (L : Lib) (c : Color) (a : List Value) : GoString :=
  L.RenderCode (L.ColorString c) a ++ "\n"

/-- The method `func (c Color) Sprint(a ...interface{}) string`. -/
def Color.Sprint (L : Lib) (c : Color) (a : List Value) : GoString :=
  L.RenderCode (L.ColorString c) a

/-- The method `func (c Color) Sprintf(format string, a ...interface{}) string`. -/
def Color.Sprintf (L : Lib) (c : Color) (format : GoString) (a : List Value) : GoString :=
  L.RenderString (L.ColorString c) (L.fmtSprintf format a)

/-- The method `func (c Color) Println(a ...interface{})`. -/
def Color.Println (L : Lib) (c : Color) (a : List Value) (out : Stdout) : Stdout :=
  Pterm.Print L [Value.str (c.Sprintln L a)] out

/-- The method `func (c Color) Print(a ...interface{})`. -/
def Color.Print (L : Lib) (c : Color) (a : List Value) (out : Stdout) : Stdout :=
  Pterm.Print L [Value.str (c.Sprint L a)] out

/-- The method `func (c Color) Printf(format string, a ...interface{})`. -/
def Color.Printf (L : Lib) (c : Color) (format : GoString) (a : List Value)
    (out : Stdout) : Stdout :=
  Pterm.Print L [Value.str (c.Sprintf L format a)] out

/-! ## Methods of `Style` -/

/-- The method `func (s Style) Sprint(a ...interface{}) string`. -/
def Style.Sprint (L : Lib) (s : Style) (a : List Value) : GoString :=
  L.RenderCode s.String a

/-- The method `func (s Style) Sprintln(a ...interface{}) string`. -/
def Style.Sprintln (L : Lib) (s : Style) (a : List Value) : GoString :=
  L.RenderCode s.String a ++ "\n"

/-- The method `func (s Style) Sprintf(format string, a ...interface{}) string`. -/
def Style.Sprintf (L : Lib) (s : Style) (format : GoString) (a : List Value) : GoString :=
  L.RenderString s.String (L.fmtSprintf format a)

/-- The method `func (s Style) Print(a ...interface{})`. -/
def Style.Print (L : Lib) (s : Style) (a : List Value) (out : Stdout) : Stdout :=
  Pterm.Print L [Value.str (s.Sprint L a)] out

/-- The method `func (s Style) Println(a ...interface{})`. -/
def Style.Println (L : Lib) (s : Style) (a : List Value) (out : Stdout) : Stdout :=
  Pterm.Println L [Value.str (s.Sprint L a)] out

/-- The method `func (s Style) Printf(format string, a ...interface{})`. -/
def Style.Printf (L : Lib) (s : Style) (format : GoString) (a : List Value)
    (out : Stdout) : Stdout :=
  Pterm.Print L [Value.str (s.Sprintf L format a)] out

/-! ## The named aliases (`var` block) -/

/-- The alias `Red = FgRed.Sprint`. -/
def Red (L : Lib) : List Value → GoString := FgRed.Sprint L
/-- The alias `Cyan = FgCyan.Sprint`. -/
def Cyan (L : Lib) : List Value → GoString := FgCyan.Sprint L
/-- The alias `Gray = FgGray.Sprint`. -/
def Gray (L : Lib) : List Value → GoString := FgGray.Sprint L
/-- The alias `Blue = FgBlue.Sprint`. -/
def Blue (L : Lib) : List Value → GoString := FgBlue.Sprint L
/-- The alias `Black = FgBlack.Sprint`. -/
def Black (L : Lib) : List Value → GoString := FgBlack.Sprint L
/-- The alias `Green = FgGreen.Sprint`. -/
def Green (L : Lib) : List Value → GoString := FgGreen.Sprint L
/-- The alias `White = FgWhite.Sprint`. -/
def White (L : Lib) : List Value → GoString := FgWhite.Sprint L
/-- The alias `Yellow = FgYellow.Sprint`. -/
def Yellow (L : Lib) : List Value → GoString := FgYellow.Sprint L
/-- The alias `Magenta = FgMagenta.Sprint`. -/
def Magenta (L : Lib) : List Value → GoString := FgMagenta.Sprint L
/-- The alias `Normal = FgDefault.Sprint`. -/
def Normal (L : Lib) : List Value → GoString := FgDefault.Sprint L
/-- The alias `LightRed = FgLightRed.Sprint`. -/
def LightRed (L : Lib) : List Value → GoString := FgLightRed.Sprint L
/-- The alias `LightCyan = FgLightCyan.Sprint`. -/
def LightCyan (L : Lib) : List Value → GoString := FgLightCyan.Sprint L
/-- The alias `LightBlue = FgLightBlue.Sprint`. -/
def LightBlue (L : Lib) : List Value → GoString := FgLightBlue.Sprint L
/-- The alias `LightGreen = FgLightGreen.Sprint`. -/
def LightGreen (L : Lib) : List Value → GoString := FgLightGreen.Sprint L
/-- The alias `LightWhite = FgLightWhite.Sprint`. -/
def LightWhite (L : Lib) : List Value → GoString := FgLightWhite.Sprint L
/-- The alias `LightYellow = FgLightYellow.Sprint`. -/
def LightYellow (L : Lib) : List Value → GoString := FgLightYellow.Sprint L
/-- The alias `LightMagenta = FgLightMagenta.Sprint`. -/
def LightMagenta (L : Lib) : List Value → GoString := FgLightMagenta.Sprint L

/-! ## Reading a code string back (the vocabulary of the properties) -/

/-- The value of a run of decimal digits, read from the left. -/
def parseDecimal (s : GoString) : Nat :=
  s.data.foldl (fun n ch => 10 * n + (ch.toNat - 48)) 0

/-- The bytes `'0'` to `'9'`. -/
def isDigitByte (ch : Char) : Bool := decide (48 ≤ ch.toNat) && decide (ch.toNat ≤ 57)

/-- Cutting a byte sequence at every occurrence of `sep`. -/
def splitBytes (sep : Char) : List Char → List (List Char)
  | [] => [[]]
  | ch :: rest =>
    if ch = sep then [] :: splitBytes sep rest
    else
      match splitBytes sep rest with
      | [] => [[ch]]
      | p :: ps => (ch :: p) :: ps

/-- Go's `strings.Split` at a one-byte separator: the pieces between the
occurrences of `sep` (one empty piece for the empty text). -/
def stringsSplit (s : GoString) (sep : Char) : List GoString :=
  (splitBytes sep s.data).map String.mk

/-- The bytes that follow the first code of a joined text: every further code
with a `';'` in front of it. -/
def tailBytes : List GoString → List Char
  | [] => []
  | x :: xs => ';' :: (x.data ++ tailBytes xs)

/-! ## The digit loop never runs out of turns -/

theorem fmtIntegerLoop_succ (fuel : Nat) : ∀ (u : Nat) (buf : List Char), u ≤ fuel →
    fmtIntegerLoop (fuel + 1) u buf = fmtIntegerLoop fuel u buf := by
  induction fuel with
  | zero =>
    intro u buf hu
    have h0 : u = 0 := by omega
    subst h0
    rfl
  | succ n ih =>
    intro u buf hu
    rw [fmtIntegerLoop.eq_2 u buf (n + 1), fmtIntegerLoop.eq_2 u buf n]
    by_cases h : u ≥ 10
    · rw [if_pos h, if_pos h]
      exact ih _ _ (by omega)
    · rw [if_neg h, if_neg h]

/-- With at least `u` turns the loop gives what it gives with `u` turns. -/
theorem fmtIntegerLoop_fuel (k u : Nat) (buf : List Char) :
    fmtIntegerLoop (u + k) u buf = fmtIntegerLoop u u buf := by
  induction k with
  | zero => rfl
  | succ k ih => rw [← Nat.add_assoc, fmtIntegerLoop_succ _ _ _ (by omega), ih]

/-! ## The closing tag and a final newline -/

theorem isPrefixOf_close_append_newline (l : List Char) :
    ['<', '/', '>'].isPrefixOf (l ++ ['\n']) = ['<', '/', '>'].isPrefixOf l := by
  match l with
  | [] => decide
  | [a] => simp [List.isPrefixOf]
  | [a, b] => simp [List.isPrefixOf]
  | a :: b :: c :: rest => simp [List.isPrefixOf]

theorem containsBytes_close_append_newline (l : List Char) :
    containsBytes ['<', '/', '>'] (l ++ ['\n']) = containsBytes ['<', '/', '>'] l := by
  induction l with
  | nil => decide
  | cons ch rest ih =>
    have h := isPrefixOf_close_append_newline (ch :: rest)
    simp only [List.cons_append] at h
    show (['<', '/', '>'].isPrefixOf (ch :: (rest ++ ['\n']))
        || containsBytes ['<', '/', '>'] (rest ++ ['\n']))
      = (['<', '/', '>'].isPrefixOf (ch :: rest) || containsBytes ['<', '/', '>'] rest)
    rw [ih, h]

/-- A text followed by a newline holds `</>` when the text does, and only then. -/
theorem hasCloseTag_append_newline (t : GoString) :
    hasCloseTag (t ++ "\n") = hasCloseTag t := by
  unfold hasCloseTag stringsContains
  rw [String.data_append]
  exact containsBytes_close_append_newline t.data

/-! ## Joining and cutting -/

theorem intercalate_go_eq_foldl (sep : GoString) (rest : List GoString) (acc : GoString) :
    String.intercalate.go acc sep rest = rest.foldl (fun b s => b ++ sep ++ s) acc := by
  induction rest generalizing acc with
  | nil => rfl
  | cons x xs ih => simp only [String.intercalate.go, List.foldl_cons, ih]

theorem stringsJoin_eq_intercalate (elems : List GoString) (sep : GoString) :
    stringsJoin elems sep = sep.intercalate elems := by
  match elems with
  | [] => rfl
  | [e] => rfl
  | e :: x :: xs =>
    simp only [stringsJoin, String.intercalate, intercalate_go_eq_foldl]

theorem codes_loop (colors : List Color) (init : List GoString) :
    colors.foldl (fun (codes : List GoString) c => codes ++ [c.String]) init
      = init ++ colors.map Color.String := by
  induction colors generalizing init with
  | nil => simp
  | cons c cs ih => simp [ih]

theorem colors2code_eq_intercalate (colors : List Color) :
    colors2code colors = ";".intercalate (colors.map Color.String) := by
  unfold colors2code
  cases colors with
  | nil => rfl
  | cons c cs =>
    simp only [List.length_cons, Nat.succ_ne_zero, if_false, Nat.add_one_ne_zero]
    rw [codes_loop, stringsJoin_eq_intercalate]
    rfl

theorem foldl_join_data (rest : List GoString) (e : GoString) :
    (rest.foldl (fun b s => b ++ ";" ++ s) e).data = e.data ++ tailBytes rest := by
  induction rest generalizing e with
  | nil => simp [tailBytes]
  | cons x xs ih =>
    simp only [List.foldl_cons, ih, tailBytes, String.data_append]
    simp

theorem colors2code_data (c : Color) (cs : List Color) :
    (colors2code (c :: cs)).data = c.String.data ++ tailBytes (cs.map Color.String) := by
  rw [colors2code_eq_intercalate]
  simp only [List.map_cons, String.intercalate, intercalate_go_eq_foldl, foldl_join_data]


theorem splitBytes_ne_nil (sep : Char) (l : List Char) : splitBytes sep l ≠ [] := by
  induction l with
  | nil => simp [splitBytes]
  | cons ch rest ih =>
    unfold splitBytes
    split
    · simp
    · split <;> simp

theorem splitBytes_append_sep (sep : Char) (p rest : List Char) (hp : sep ∉ p) :
    splitBytes sep (p ++ sep :: rest) = p :: splitBytes sep rest := by
  induction p with
  | nil => simp [splitBytes]
  | cons ch p ih =>
    have hne : ch ≠ sep := fun h => hp (by simp [h])
    have hp2 : sep ∉ p := fun h => hp (by simp [h])
    show splitBytes sep (ch :: (p ++ sep :: rest)) = (ch :: p) :: splitBytes sep rest
    rw [splitBytes, if_neg hne, ih hp2]

theorem splitBytes_of_not_mem (sep : Char) (p : List Char) (hp : sep ∉ p) :
    splitBytes sep p = [p] := by
  induction p with
  | nil => simp [splitBytes]
  | cons ch p ih =>
    have hne : ch ≠ sep := fun h => hp (by simp [h])
    have hp2 : sep ∉ p := fun h => hp (by simp [h])
    simp only [splitBytes, hne, if_false, ih hp2]

theorem splitBytes_join (e : GoString) (rest : List GoString)
    (he : ';' ∉ e.data) (hr : ∀ x ∈ rest, ';' ∉ x.data) :
    splitBytes ';' (e.data ++ tailBytes rest) = e.data :: rest.map String.data := by
  induction rest generalizing e with
  | nil => simpa [tailBytes] using splitBytes_of_not_mem ';' e.data he
  | cons x xs ih =>
    have hx : ';' ∉ x.data := hr x (by simp)
    have hxs : ∀ y ∈ xs, ';' ∉ y.data := fun y hy => hr y (by simp [hy])
    simp only [tailBytes, List.map_cons]
    rw [splitBytes_append_sep ';' e.data _ he, ih x hx hxs]

theorem count_join (e : GoString) (rest : List GoString)
    (he : ';' ∉ e.data) (hr : ∀ x ∈ rest, ';' ∉ x.data) :
    (e.data ++ tailBytes rest).count ';' = rest.length := by
  induction rest generalizing e with
  | nil => simpa [tailBytes] using List.count_eq_zero_of_not_mem he
  | cons x xs ih =>
    have hx : ';' ∉ x.data := hr x (by simp)
    have hxs : ∀ y ∈ xs, ';' ∉ y.data := fun y hy => hr y (by simp [hy])
    have h := ih x hx hxs
    have h0 : e.data.count ';' = 0 := List.count_eq_zero_of_not_mem he
    simp only [tailBytes, List.count_append, List.count_cons_self, List.length_cons, h0] at h ⊢
    omega

/-! ## Facts about `Color.String`, checked on all 256 codes -/

set_option maxRecDepth 1000000 in
theorem color_string_facts : ∀ c : Color,
    (1 ≤ c.String.length ∧ c.String.length ≤ 3) ∧
    c.String.data.all isDigitByte = true ∧
    (c.String.data.head? ≠ some '0' ∨ c.String = "0") ∧
    parseDecimal c.String = c.val ∧
    ';' ∉ c.String.data := by
  decide

theorem color_string_no_sep (c : Color) : ';' ∉ c.String.data :=
  (color_string_facts c).2.2.2.2

theorem codes_no_sep (cs : List Color) : ∀ x ∈ cs.map Color.String, ';' ∉ x.data := by
  intro x hx
  obtain ⟨c, _, rfl⟩ := List.mem_map.mp hx
  exact color_string_no_sep c

theorem map_mk_data (l : List GoString) : (l.map String.data).map String.mk = l := by
  induction l with
  | nil => rfl
  | cons x xs ih => simp [ih]

/-- Cutting the code of a non-empty style at `';'` gives its colours' codes. -/
theorem code_split (c : Color) (cs : List Color) :
    stringsSplit (Style.Code (c :: cs)) ';' = (c :: cs).map Color.String := by
  unfold stringsSplit Style.Code Style.String
  rw [colors2code_data, splitBytes_join _ _ (color_string_no_sep c) (codes_no_sep cs)]
  simp only [List.map_cons, map_mk_data]

/-- The code of a non-empty style has one `';'` less than it has colours. -/
theorem code_count (c : Color) (cs : List Color) :
    (Style.Code (c :: cs)).data.count ';' = cs.length := by
  unfold Style.Code Style.String
  rw [colors2code_data, count_join _ _ (color_string_no_sep c) (codes_no_sep cs)]
  simp

/-- The code of a non-empty style is not empty. -/
theorem code_cons_ne_empty (c : Color) (cs : List Color) : Style.Code (c :: cs) ≠ "" := by
  intro h
  have hd : (Style.Code (c :: cs)).data = [] := by rw [h]
  unfold Style.Code Style.String at hd
  rw [colors2code_data] at hd
  have hlen := (color_string_facts c).1.1
  have hnil : c.String.data = [] := (List.append_eq_nil.mp hd).1
  have : c.String.length = 0 := by
    show c.String.data.length = 0
    rw [hnil]; rfl
  omega

/-- The code of a one-colour style is the colour's own code. -/
theorem code_singleton (c : Color) : Style.String [c] = c.String := rfl

/-! ## The claims -/

/-- C1: for every style, `Code()` and `String()` return the same text, the
decimal codes of its colours joined by `';'` in insertion order (also through
`NewStyle`): empty for no colour, and otherwise as many codes as colours, with
one semicolon less; `NewStyle(FgRed, BgWhite, Bold).Code()` is `"31;47;1"`. -/
theorem style_code_is_joined_codes (s : Style) :
    s.Code = s.String ∧
    (NewStyle s).Code = ";".intercalate (s.map Color.String) ∧
    s.String = ";".intercalate (s.map Color.String) ∧
    Style.Code [] = "" ∧
    s.Code.data.count ';' = s.length - 1 ∧
    stringsSplit s.Code ';' = (if s.length = 0 then [""] else s.map Color.String) ∧
    (NewStyle [FgRed, BgWhite, Bold]).Code = "31;47;1" := by
  refine ⟨rfl, colors2code_eq_intercalate s, colors2code_eq_intercalate s, rfl, ?_, ?_, by decide⟩
  · cases s with
    | nil => rfl
    | cons c cs => rw [code_count]; simp
  · cases s with
    | nil => rfl
    | cons c cs => rw [code_split]; simp

/-- C2: for every colour, `String()` is the decimal text of the code: one to
three bytes, all of them digits (so no sign), no leading zero unless the text
is `"0"` (the text of the code 0), and its decimal value is the code. -/
theorem color_string_is_decimal (c : Color) :
    (1 ≤ c.String.length ∧ c.String.length ≤ 3) ∧
    c.String.data.all isDigitByte = true ∧
    (c.String.data.head? ≠ some '0' ∨ c.String = "0") ∧
    Color.String 0 = "0" ∧
    parseDecimal c.String = c.val :=
  have h := color_string_facts c
  ⟨h.1, h.2.1, h.2.2.1, rfl, h.2.2.2.1⟩

/-- C3: when the library's `String()` of a colour is the decimal text that
`Color.String` gives, `Sprint`, `Sprintf` and `Sprintln` of a colour and of a
style hand the renderer exactly this layer's code string of the receiver. -/
theorem sprint_hands_own_code (L : Lib) (hcode : ∀ c : Color, L.ColorString c = c.String)
    (c : Color) (s : Style) (format : GoString) (a : List Value) :
    c.Sprint L a = L.RenderCode c.String a ∧
    s.Sprint L a = L.RenderCode s.Code a ∧
    c.Sprintf L format a = L.RenderString c.String (L.fmtSprintf format a) ∧
    s.Sprintf L format a = L.RenderString s.Code (L.fmtSprintf format a) ∧
    c.Sprintln L a = L.RenderCode c.String a ++ "\n" ∧
    s.Sprintln L a = L.RenderCode s.Code a ++ "\n" := by
  refine ⟨?_, rfl, ?_, rfl, ?_, rfl⟩
  · unfold Color.Sprint; rw [hcode]
  · unfold Color.Sprintf; rw [hcode]
  · unfold Color.Sprintln; rw [hcode]

/-- The theorem of C3 at the colour `FgRed`, the style `FgRed, Bold` and the
operand `"hi"`, with the implementation `ansiLib`. -/
theorem sprint_hands_own_code_witness :
    (∀ c : Color, ansiLib.ColorString c = c.String) ∧
    FgRed.Sprint ansiLib [.str "hi"] = "\x1b[31mhi\x1b[0m" ∧
    Style.Sprint ansiLib [FgRed, Bold] [.str "hi"] = "\x1b[31;1mhi\x1b[0m" ∧
    FgRed.Sprint ansiLib [.str "hi"] = ansiLib.RenderCode FgRed.String [.str "hi"] :=
  ⟨fun _ => rfl, by decide, by decide,
    (sprint_hands_own_code ansiLib (fun _ => rfl) FgRed [FgRed, Bold] "%v" [.str "hi"]).1⟩

/-- C4: for every colour, style and operand list, `Sprintln` is `Sprint`
followed by one newline, after the rendered text. -/
theorem sprintln_is_sprint_newline (L : Lib) (c : Color) (s : Style) (a : List Value) :
    c.Sprintln L a = c.Sprint L a ++ "\n" ∧ s.Sprintln L a = s.Sprint L a ++ "\n" :=
  ⟨rfl, rfl⟩

/-- C5: on the operands `"a"`, `"b"` the code renders the text `ab`, not `a b`:
`Sprintln` of a colour and of a style give `ESC[31m`, `ab`, `ESC[0m` and a
newline, without the blank that `fmt.Sprintln` puts between the two; and for
every implementation of the library the operands of `Sprintln` are rendered by
the very call that `Sprint` makes. -/
theorem sprintln_strings_without_space :
    FgRed.Sprintln ansiLib [.str "a", .str "b"] = "\x1b[31mab\x1b[0m\n" ∧
    Style.Sprintln ansiLib [FgRed] [.str "a", .str "b"] = "\x1b[31mab\x1b[0m\n" ∧
    fmtSprintln [.str "a", .str "b"] = "a b\n" ∧
    FgRed.Sprintln ansiLib [.str "a", .str "b"]
      ≠ ansiLib.RenderString FgRed.String "a b" ++ "\n" ∧
    (∀ L : Lib, FgRed.Sprintln L [.str "a", .str "b"]
      = FgRed.Sprint L [.str "a", .str "b"] ++ "\n") :=
  ⟨by decide, by decide, by decide, by decide, fun _ => rfl⟩

/-- C6, as first stated, fails: the library's `Print` replaces colour tags, so
`FgRed.Print("<green>hi</>")` writes `ESC[31m ESC[0;32m hi ESC[0m ESC[0m`
(without the blanks), which is not the text `ESC[31m<green>hi</>ESC[0m` that
`FgRed.Sprint` returns; the same holds of `Style.Print`. -/
theorem print_rewrites_colour_tags :
    FgRed.Print ansiLib [.str "<green>hi</>"] "" = "\x1b[31m\x1b[0;32mhi\x1b[0m\x1b[0m" ∧
    FgRed.Sprint ansiLib [.str "<green>hi</>"] = "\x1b[31m<green>hi</>\x1b[0m" ∧
    FgRed.Print ansiLib [.str "<green>hi</>"] ""
      ≠ "" ++ FgRed.Sprint ansiLib [.str "<green>hi</>"] ∧
    Style.Print ansiLib [FgRed] [.str "<green>hi</>"] ""
      ≠ "" ++ Style.Sprint ansiLib [FgRed] [.str "<green>hi</>"] := by
  decide

/-- C6, amended: `Print`, `Printf` and `Println` of a colour and of a style
hand the library's `Print` (for `Style.Println`, its `Println`) one operand,
the text of the matching `Sprint`, `Sprintf` or `Sprintln` (for
`Style.Println`, of `Sprint`). When the library writes a text without the
closing tag `</>` as it stands (`Println` adding a newline), its `String()` of
a colour is the decimal text, and the texts of `Sprint` and `Sprintf` hold no
`</>`, standard output receives exactly the text of the matching `Sprint`,
`Sprintf` or `Sprintln`, and a colour prints a line as the style made of that
colour does. -/
theorem print_appends_tagfree_text (L : Lib)
    (hcode : ∀ c : Color, L.ColorString c = c.String)
    (hprint : ∀ (t : GoString) (out : Stdout), hasCloseTag t = false →
      L.colorPrint [Value.str t] out = out ++ t)
    (hprintln : ∀ (t : GoString) (out : Stdout), hasCloseTag t = false →
      L.colorPrintln [Value.str t] out = out ++ t ++ "\n")
    (c : Color) (s : Style) (format : GoString) (a : List Value) (out : Stdout)
    (hc : hasCloseTag (c.Sprint L a) = false)
    (hcf : hasCloseTag (c.Sprintf L format a) = false)
    (hs : hasCloseTag (s.Sprint L a) = false)
    (hsf : hasCloseTag (s.Sprintf L format a) = false) :
    (c.Print L a out = L.colorPrint [.str (c.Sprint L a)] out ∧
      c.Printf L format a out = L.colorPrint [.str (c.Sprintf L format a)] out ∧
      c.Println L a out = L.colorPrint [.str (c.Sprintln L a)] out ∧
      s.Print L a out = L.colorPrint [.str (s.Sprint L a)] out ∧
      s.Printf L format a out = L.colorPrint [.str (s.Sprintf L format a)] out ∧
      s.Println L a out = L.colorPrintln [.str (s.Sprint L a)] out) ∧
    c.Print L a out = out ++ c.Sprint L a ∧
    c.Printf L format a out = out ++ c.Sprintf L format a ∧
    c.Println L a out = out ++ c.Sprintln L a ∧
    s.Print L a out = out ++ s.Sprint L a ∧
    s.Printf L format a out = out ++ s.Sprintf L format a ∧
    s.Println L a out = out ++ s.Sprintln L a ∧
    c.Println L a out = (NewStyle [c]).Println L a out := by
  have hln : ∀ (z : Style), hasCloseTag (z.Sprint L a) = false →
      z.Println L a out = out ++ z.Sprintln L a := by
    intro z hz
    unfold Style.Println Println
    rw [hprintln _ _ hz, String.append_assoc]
    rfl
  have hcl : hasCloseTag (c.Sprintln L a) = false := by
    have : c.Sprintln L a = c.Sprint L a ++ "\n" := rfl
    rw [this, hasCloseTag_append_newline, hc]
  have hone : (NewStyle [c]).Sprint L a = c.Sprint L a := by
    unfold NewStyle Style.Sprint Color.Sprint
    rw [code_singleton, hcode]
  refine ⟨⟨rfl, rfl, rfl, rfl, rfl, rfl⟩, hprint _ _ hc, hprint _ _ hcf, hprint _ _ hcl,
    hprint _ _ hs, hprint _ _ hsf, hln s hs, ?_⟩
  rw [hln _ (by rw [hone]; exact hc)]
  have : (NewStyle [c]).Sprintln L a = c.Sprintln L a := by
    show (NewStyle [c]).Sprint L a ++ "\n" = c.Sprint L a ++ "\n"
    rw [hone]
  rw [this]
  exact hprint _ _ hcl

/-- The amended theorem of C6 at the colour `FgRed`, the style `FgRed, Bold`,
the format `n=%v`, the operand `7` and the output `"> "`, with `ansiLib`. -/
theorem print_appends_tagfree_text_witness :
    (∀ c : Color, ansiLib.ColorString c = c.String) ∧
    (∀ (t : GoString) (out : Stdout), hasCloseTag t = false →
      ansiLib.colorPrint [Value.str t] out = out ++ t) ∧
    (∀ (t : GoString) (out : Stdout), hasCloseTag t = false →
      ansiLib.colorPrintln [Value.str t] out = out ++ t ++ "\n") ∧
    hasCloseTag (FgRed.Sprint ansiLib [.int 7]) = false ∧
    hasCloseTag (FgRed.Sprintf ansiLib "n=%v" [.int 7]) = false ∧
    hasCloseTag (Style.Sprint ansiLib [FgRed, Bold] [.int 7]) = false ∧
    hasCloseTag (Style.Sprintf ansiLib [FgRed, Bold] "n=%v" [.int 7]) = false ∧
    FgRed.Println ansiLib [.int 7] "> " = "> \x1b[31m7\x1b[0m\n" ∧
    Style.Printf ansiLib [FgRed, Bold] "n=%v" [.int 7] "> " = "> \x1b[31;1mn=7\x1b[0m" ∧
    Style.Println ansiLib [FgRed, Bold] [.int 7] "> " = "> \x1b[31;1m7\x1b[0m\n" ∧
    FgRed.Println ansiLib [.int 7] "> " = (NewStyle [FgRed]).Println ansiLib [.int 7] "> " :=
  have hone : ∀ t : GoString, fmtSprint [Value.str t] = t := by
    intro t
    simp [fmtSprint, fmtV, Value.isString]
  have hp : ∀ (t : GoString) (out : Stdout), hasCloseTag t = false →
      ansiLib.colorPrint [Value.str t] out = out ++ t := by
    intro t out ht
    show out ++ ansiRender [Value.str t] = out ++ t
    have : ansiRender [Value.str t] = t := by
      simp [ansiRender, replaceTag, hone, ht]
    rw [this]
  have hpl : ∀ (t : GoString) (out : Stdout), hasCloseTag t = false →
      ansiLib.colorPrintln [Value.str t] out = out ++ t ++ "\n" := by
    intro t out ht
    show out ++ (replaceTag basicTagCode (formatArgsForPrintln [Value.str t]) ++ "\n")
      = out ++ t ++ "\n"
    have : replaceTag basicTagCode (formatArgsForPrintln [Value.str t]) = t := by
      simp [formatArgsForPrintln, replaceTag, hone, ht]
    rw [this, String.append_assoc]
  ⟨fun _ => rfl, hp, hpl, by decide, by decide, by decide, by decide, by decide, by decide,
    by decide,
    (print_appends_tagfree_text ansiLib (fun _ => rfl) hp hpl FgRed [FgRed, Bold] "n=%v"
      [.int 7] "> " (by decide) (by decide) (by decide) (by decide)).2.2.2.2.2.2.2⟩

/-- C7: each of the 17 named aliases is `Sprint` of its foreground constant,
whose code is the one listed: Black 30, Red 31, Green 32, Yellow 33, Blue 34,
Magenta 35, Cyan 36, White 37, Normal 39, Gray 90, LightRed 91, LightGreen 92,
LightYellow 93, LightBlue 94, LightMagenta 95, LightCyan 96, LightWhite 97. -/
theorem aliases_are_sprint (L : Lib) (a : List Value) :
    (Black L a = FgBlack.Sprint L a ∧ FgBlack.String = "30") ∧
    (Red L a = FgRed.Sprint L a ∧ FgRed.String = "31") ∧
    (Green L a = FgGreen.Sprint L a ∧ FgGreen.String = "32") ∧
    (Yellow L a = FgYellow.Sprint L a ∧ FgYellow.String = "33") ∧
    (Blue L a = FgBlue.Sprint L a ∧ FgBlue.String = "34") ∧
    (Magenta L a = FgMagenta.Sprint L a ∧ FgMagenta.String = "35") ∧
    (Cyan L a = FgCyan.Sprint L a ∧ FgCyan.String = "36") ∧
    (White L a = FgWhite.Sprint L a ∧ FgWhite.String = "37") ∧
    (Normal L a = FgDefault.Sprint L a ∧ FgDefault.String = "39") ∧
    (Gray L a = FgGray.Sprint L a ∧ FgGray.String = "90") ∧
    (LightRed L a = FgLightRed.Sprint L a ∧ FgLightRed.String = "91") ∧
    (LightGreen L a = FgLightGreen.Sprint L a ∧ FgLightGreen.String = "92") ∧
    (LightYellow L a = FgLightYellow.Sprint L a ∧ FgLightYellow.String = "93") ∧
    (LightBlue L a = FgLightBlue.Sprint L a ∧ FgLightBlue.String = "94") ∧
    (LightMagenta L a = FgLightMagenta.Sprint L a ∧ FgLightMagenta.String = "95") ∧
    (LightCyan L a = FgLightCyan.Sprint L a ∧ FgLightCyan.String = "96") ∧
    (LightWhite L a = FgLightWhite.Sprint L a ∧ FgLightWhite.String = "97") :=
  ⟨⟨rfl, by decide⟩, ⟨rfl, by decide⟩, ⟨rfl, by decide⟩, ⟨rfl, by decide⟩, ⟨rfl, by decide⟩,
   ⟨rfl, by decide⟩, ⟨rfl, by decide⟩, ⟨rfl, by decide⟩, ⟨rfl, by decide⟩, ⟨rfl, by decide⟩,
   ⟨rfl, by decide⟩, ⟨rfl, by decide⟩, ⟨rfl, by decide⟩, ⟨rfl, by decide⟩, ⟨rfl, by decide⟩,
   ⟨rfl, by decide⟩, ⟨rfl, by decide⟩⟩

/-- C8: `FgGray` and `FgDarkGray` are both 90, with the text `"90"`, and
`BgGray` and `BgDarkGray` are both 100. -/
theorem gray_is_dark_gray :
    FgGray = FgDarkGray ∧ FgGray.val = 90 ∧ FgDarkGray.val = 90 ∧
    FgGray.String = "90" ∧ FgDarkGray.String = "90" ∧
    BgGray = BgDarkGray ∧ BgGray.val = 100 ∧ BgDarkGray.val = 100 := by
  decide

/-- C9: the constants of each block are numbered consecutively in declaration
order (30..37 and 39; 90..97; 40..47 and 49; 100..107; 0..9); a background
constant is its foreground counterpart plus 10 and a bright constant its base
counterpart plus 60. -/
theorem constants_are_consecutive :
    [FgBlack, FgRed, FgGreen, FgYellow, FgBlue, FgMagenta, FgCyan, FgWhite].map Fin.val
      = [30, 31, 32, 33, 34, 35, 36, 37] ∧
    FgDefault.val = 39 ∧
    [FgDarkGray, FgLightRed, FgLightGreen, FgLightYellow, FgLightBlue, FgLightMagenta,
      FgLightCyan, FgLightWhite].map Fin.val = [90, 91, 92, 93, 94, 95, 96, 97] ∧
    [BgBlack, BgRed, BgGreen, BgYellow, BgBlue, BgMagenta, BgCyan, BgWhite].map Fin.val
      = [40, 41, 42, 43, 44, 45, 46, 47] ∧
    BgDefault.val = 49 ∧
    [BgDarkGray, BgLightRed, BgLightGreen, BgLightYellow, BgLightBlue, BgLightMagenta,
      BgLightCyan, BgLightWhite].map Fin.val = [100, 101, 102, 103, 104, 105, 106, 107] ∧
    [Reset, Bold, Fuzzy, Italic, Underscore, Blink, FastBlink, Reverse, Concealed,
      Strikethrough].map Fin.val = [0, 1, 2, 3, 4, 5, 6, 7, 8, 9] ∧
    [BgBlack, BgRed, BgGreen, BgYellow, BgBlue, BgMagenta, BgCyan, BgWhite, BgDefault,
      BgDarkGray, BgLightRed, BgLightGreen, BgLightYellow, BgLightBlue, BgLightMagenta,
      BgLightCyan, BgLightWhite, BgGray].map Fin.val
      = [FgBlack, FgRed, FgGreen, FgYellow, FgBlue, FgMagenta, FgCyan, FgWhite, FgDefault,
          FgDarkGray, FgLightRed, FgLightGreen, FgLightYellow, FgLightBlue, FgLightMagenta,
          FgLightCyan, FgLightWhite, FgGray].map (fun c => c.val + 10) ∧
    [FgDarkGray, FgLightRed, FgLightGreen, FgLightYellow, FgLightBlue, FgLightMagenta,
      FgLightCyan, FgLightWhite, BgDarkGray, BgLightRed, BgLightGreen, BgLightYellow,
      BgLightBlue, BgLightMagenta, BgLightCyan, BgLightWhite].map Fin.val
      = [FgBlack, FgRed, FgGreen, FgYellow, FgBlue, FgMagenta, FgCyan, FgWhite,
          BgBlack, BgRed, BgGreen, BgYellow, BgBlue, BgMagenta, BgCyan, BgWhite].map
          (fun c => c.val + 60) := by
  decide

/-- C10: `Code` is injective on styles; it is the empty text only for the empty
style; and cutting the code of a non-empty style at `';'` and reading every
piece as a decimal number gives back the style's codes. -/
theorem style_code_injective :
    Function.Injective Style.Code ∧
    (∀ s : Style, s.Code = "" ↔ s = []) ∧
    (∀ (c : Color) (cs : List Color),
      (stringsSplit (Style.Code (c :: cs)) ';').map parseDecimal = (c :: cs).map Fin.val) := by
  have hread : ∀ (c : Color) (cs : List Color),
      (stringsSplit (Style.Code (c :: cs)) ';').map parseDecimal = (c :: cs).map Fin.val := by
    intro c cs
    rw [code_split, List.map_map]
    apply List.map_congr_left
    intro x _
    exact (color_string_facts x).2.2.2.1
  have hempty : ∀ s : Style, s.Code = "" ↔ s = [] := by
    intro s
    cases s with
    | nil => exact ⟨fun _ => rfl, fun _ => rfl⟩
    | cons c cs => exact ⟨fun h => absurd h (code_cons_ne_empty c cs), fun h => by cases h⟩
  refine ⟨?_, hempty, hread⟩
  intro s t h
  cases s with
  | nil => exact ((hempty t).mp h.symm).symm
  | cons c cs =>
    cases t with
    | nil => exact (hempty _).mp h
    | cons d ds =>
      have h1 := hread c cs
      rw [h, hread d ds] at h1
      exact List.map_injective_iff.mpr Fin.val_injective h1.symm

/-- The theorem of C10 at the styles `FgRed, Bold` and `FgRed`: equal codes
would make them equal, and the code `31;1` reads back as 31, 1. -/
theorem style_code_injective_witness :
    Style.Code [FgRed, Bold] ≠ Style.Code [FgRed] ∧
    (stringsSplit (Style.Code [FgRed, Bold]) ';').map parseDecimal = [31, 1] :=
  ⟨fun h => by have := style_code_injective.1 h; revert this; decide,
   style_code_injective.2.2 FgRed [Bold]⟩

end Pterm
